import Mathlib

/-!
Verification development for `tools/sha256_monitor.py`.

The Python source is shallowly embedded as follows.

* File contents are byte lists (`List Nat`); a filesystem `FS` maps path
  strings to optional contents, plus an extended-attribute store and an
  (ignored by hashing) metadata map standing for timestamps/permissions.
* Paths are modelled by their final name component, which is the only part
  the source ever inspects (`Path.suffix`, `Path.name.startswith`,
  `Path.with_suffix`); `pathSuffix` and `with_suffix` reproduce the
  `pathlib.PurePath` rules (`rfind` of the last dot, suffix empty for a
  leading or trailing dot).  `pathlib.with_suffix` raises on an empty name;
  the embedding is total, so theorems about it carry a nonemptiness
  hypothesis where that matters.
* `hashlib.sha256` is implemented in full (padding, message schedule,
  64-round compression) over byte lists; `compute_sha256` reads the file in
  `block_size` chunks and hashes their concatenation, exactly as the
  streaming loop in the source does.
* Fallible Python calls return `Except PyExn`; an exception that the source
  does not catch surfaces as a `.crash` outcome of the batch loop, while the
  watch handler's `try/except` is mirrored by the `match` in `on_closed`.
* `Env` carries the failure oracles: whether the `xattr` module imported,
  which `xattr.setxattr` calls raise `OSError`, and which sidecar writes
  fail.  `read_text` is modelled as ASCII decoding, which is faithful for
  the sidecar files the program itself writes.
-/

/-! ## SHA-256 digest engine (`hashlib.sha256`) -/

def w32 (n : Nat) : Nat := n % 4294967296

def rotr (k n : Nat) : Nat := w32 ((n >>> k) ||| (n <<< (32 - k)))

def shaK : List Nat :=
  [1116352408, 1899447441, 3049323471, 3921009573, 961987163, 1508970993,
   2453635748, 2870763221, 3624381080, 310598401, 607225278, 1426881987,
   1925078388, 2162078206, 2614888103, 3248222580, 3835390401, 4022224774,
   264347078, 604807628, 770255983, 1249150122, 1555081692, 1996064986,
   2554220882, 2821834349, 2952996808, 3210313671, 3336571891, 3584528711,
   113926993, 338241895, 666307205, 773529912, 1294757372, 1396182291,
   1695183700, 1986661051, 2177026350, 2456956037, 2730485921, 2820302411,
   3259730800, 3345764771, 3516065817, 3600352804, 4094571909, 275423344,
   430227734, 506948616, 659060556, 883997877, 958139571, 1322822218,
   1537002063, 1747873779, 1955562222, 2024104815, 2227730452, 2361852424,
   2428436474, 2756734187, 3204031479, 3329325298]

structure Hst where
  a : Nat
  b : Nat
  c : Nat
  d : Nat
  e : Nat
  f : Nat
  g : Nat
  h : Nat

def shaH0 : Hst :=
  ⟨1779033703, 3144134277, 1013904242, 2773480762,
   1359893119, 2600822924, 528734635, 1541459225⟩

def smallSigma0 (x : Nat) : Nat := (rotr 7 x) ^^^ (rotr 18 x) ^^^ (x >>> 3)

def smallSigma1 (x : Nat) : Nat := (rotr 17 x) ^^^ (rotr 19 x) ^^^ (x >>> 10)

def bigSigma0 (x : Nat) : Nat := (rotr 2 x) ^^^ (rotr 13 x) ^^^ (rotr 22 x)

def bigSigma1 (x : Nat) : Nat := (rotr 6 x) ^^^ (rotr 11 x) ^^^ (rotr 25 x)

def extendStep (ws : List Nat) : List Nat :=
  ws ++ [w32 (ws.getD (ws.length - 16) 0 + smallSigma0 (ws.getD (ws.length - 15) 0) +
              ws.getD (ws.length - 7) 0 + smallSigma1 (ws.getD (ws.length - 2) 0))]

def iterN : Nat → (List Nat → List Nat) → List Nat → List Nat
  | 0, _, x => x
  | n + 1, f, x => iterN n f (f x)

def msgSchedule (block : List Nat) : List Nat := iterN 48 extendStep block

def shaRound (ws : List Nat) (st : Hst) (i : Nat) : Hst :=
  let ch := (st.e &&& st.f) ^^^ ((st.e ^^^ 0xffffffff) &&& st.g)
  let t1 := w32 (st.h + bigSigma1 st.e + ch + shaK.getD i 0 + ws.getD i 0)
  let maj := (st.a &&& st.b) ^^^ (st.a &&& st.c) ^^^ (st.b &&& st.c)
  let t2 := w32 (bigSigma0 st.a + maj)
  ⟨w32 (t1 + t2), st.a, st.b, st.c, w32 (st.d + t1), st.e, st.f, st.g⟩

def compress (h0 : Hst) (block : List Nat) : Hst :=
  let ws := msgSchedule block
  let r := (List.range 64).foldl (shaRound ws) h0
  ⟨w32 (h0.a + r.a), w32 (h0.b + r.b), w32 (h0.c + r.c), w32 (h0.d + r.d),
   w32 (h0.e + r.e), w32 (h0.f + r.f), w32 (h0.g + r.g), w32 (h0.h + r.h)⟩

def bytesToWords : List Nat → List Nat
  | b0 :: b1 :: b2 :: b3 :: rest =>
      (b0 * 16777216 + b1 * 65536 + b2 * 256 + b3) :: bytesToWords rest
  | _ => []

/-- Split a list into chunks of `bs` elements; `fuel` bounds the recursion and
any `fuel ≥ l.length` gives the true chunking. -/
def chunksGo (bs : Nat) : Nat → List Nat → List (List Nat)
  | 0, _ => []
  | _, [] => []
  | fuel + 1, x :: xs => (x :: xs).take bs :: chunksGo bs fuel ((x :: xs).drop bs)

def chunk64 (l : List Nat) : List (List Nat) := chunksGo 64 l.length l

def padLenBytes (n : Nat) : List Nat := (List.range 8).map (fun i => n / 2 ^ (8 * (7 - i)) % 256)

def shaPad (msg : List Nat) : List Nat :=
  msg ++ 0x80 :: (List.replicate ((119 - msg.length % 64) % 64) 0 ++ padLenBytes (8 * msg.length))

def sha256state (msg : List Nat) : Hst :=
  (chunk64 (shaPad msg)).foldl (fun h b => compress h (bytesToWords b)) shaH0

def hexChars : List Char := "0123456789abcdef".data

def hexDigit (n : Nat) : Char := hexChars.getD (n % 16) '0'

def toHex8 (w : Nat) : List Char := (List.range 8).map (fun i => hexDigit (w / 16 ^ (7 - i)))

/-- Model of `hashlib.sha256(bytes).hexdigest()`: the 64-character lowercase
hexadecimal SHA-256 digest of a byte sequence. -/
def sha256hex (msg : List Nat) : String :=
  let st := sha256state msg
  ⟨toHex8 st.a ++ toHex8 st.b ++ toHex8 st.c ++ toHex8 st.d ++
   toHex8 st.e ++ toHex8 st.f ++ toHex8 st.g ++ toHex8 st.h⟩

/-! ## Strings and paths: the `pathlib` and `str` operations the source uses -/

/-- Index of the last `'.'` in a character list (Python `str.rfind('.')`,
with `none` for "not found" instead of `-1`). -/
def rfindDot : List Char → Option Nat
  | [] => none
  | c :: rest =>
    match rfindDot rest with
    | some j => some (j + 1)
    | none => if c = '.' then some 0 else none

/-- Model of `pathlib.PurePath.suffix` on a name: the part from the last dot on,
empty when the last dot is the first character, the last character, or
absent. -/
def pathSuffix (p : String) : String :=
  match rfindDot p.data with
  | none => ""
  | some i => if 0 < i ∧ i + 1 < p.data.length then ⟨p.data.drop i⟩ else ""

/-- Model of `pathlib.PurePath.with_suffix` on a name: drop the current suffix and
append the new one.  (`pathlib` additionally raises `ValueError` on an empty
name; the embedding is total and theorems that depend on this carry a
nonemptiness hypothesis.) -/
def with_suffix (p : String) (suffix : String) : String :=
  ⟨p.data.take (p.data.length - (pathSuffix p).data.length) ++ suffix.data⟩

/-- The sidecar path `path.with_suffix(path.suffix + ".sha256")` computed by
both `write_sidecar_file` and the verify branch of the batch helper. -/
def sidecarPath (p : String) : String := with_suffix p (pathSuffix p ++ ".sha256")

/-- Python `str.startswith`. -/
def pyStartswith (s pre : String) : Bool := s.data.take pre.data.length == pre.data

/-- Python `str.endswith` (used to state claims about names ending in
`".sha256"`; the source itself tests `Path.suffix` equality). -/
def pyEndswith (s suf : String) : Bool :=
  s.data.drop (s.data.length - suf.data.length) == suf.data

/-- The whitespace characters stripped by Python `str.strip()` (restricted to
the ASCII whitespace relevant to sidecar contents). -/
def isPySpace (c : Char) : Bool :=
  c = ' ' || c = '\t' || c = '\n' || c = '\r' || c = '\x0b' || c = '\x0c'

def stripChars (l : List Char) : List Char :=
  ((l.dropWhile isPySpace).reverse.dropWhile isPySpace).reverse

/-- Python `str.strip()`. -/
def pyStrip (s : String) : String := ⟨stripChars s.data⟩

/-- ASCII encoding of a string to bytes (`str.encode("ascii")` /
`Path.write_text(..., encoding="ascii")`); total here, faithful for the hex
digests and whitespace actually written. -/
def encodeAscii (s : String) : List Nat := s.data.map Char.toNat

/-- Decoding of stored bytes back to text (`Path.read_text()`), faithful for
the ASCII contents the monitor writes. -/
def decodeAscii (bytes : List Nat) : String := ⟨bytes.map Char.ofNat⟩

/-! ## Filesystem state, environment oracles and exceptions -/

/-- A Python exception relevant to the monitor: a failed read inside
`compute_sha256`, an `OSError` from `xattr.setxattr`, or a failed sidecar
write inside `write_sidecar_file`. -/
inductive PyExn where
  | readError
  | attrError
  | sidecarWriteError
deriving DecidableEq

/-- Filesystem state: byte contents per path, extended attributes
(`user.sha256`) per path, and a metadata map standing for timestamps and
permissions, which no digesting function reads. -/
structure FS where
  files : String → Option (List Nat)
  xattrs : String → Option (List Nat)
  metadata : String → Nat

def putFile (fs : FS) (k : String) (v : List Nat) : FS :=
  { fs with files := fun q => if q = k then some v else fs.files q }

def putXattr (fs : FS) (k : String) (v : List Nat) : FS :=
  { fs with xattrs := fun q => if q = k then some v else fs.xattrs q }

/-- Environment oracles: whether the `xattr` module imported, which
`xattr.setxattr` calls raise `OSError`, and which sidecar writes fail. -/
structure Env where
  xattrAvailable : Bool
  xattrFails : String → Bool
  sidecarFails : String → Bool

/-! ## The three utility functions of `sha256_monitor.py` -/

/-- Model of `compute_sha256` with an explicit `block_size`: open the file, read it in
`block_size`-byte chunks, and feed each chunk to the incremental hash, i.e.
hash the concatenation of the chunks.  An unreadable file raises. -/
def compute_sha256_blocks (block_size : Nat) (fs : FS) (p : String) : Except PyExn String :=
  match fs.files p with
  | none => .error .readError
  | some b => .ok (sha256hex ((chunksGo block_size b.length b).flatten))

/-- Model of `compute_sha256(path)` with the default `block_size = 8 * 1024 * 1024`. -/
def compute_sha256 (fs : FS) (p : String) : Except PyExn String :=
  compute_sha256_blocks 8388608 fs p

/-- The raw `xattr.setxattr(path, b"user.sha256", digest.encode())` call,
which stores the digest bytes (no newline) or raises `OSError`. -/
def xattr_setxattr (env : Env) (fs : FS) (p : String) (digest : String) : Except PyExn FS :=
  if env.xattrFails p = true then .error .attrError
  else .ok (putXattr fs p (encodeAscii digest))

/-- Model of `set_xattr_sha256`: no-op when the `xattr` module is missing; otherwise
attempt the attribute write, silently swallowing `OSError`. -/
def set_xattr_sha256 (env : Env) (fs : FS) (p : String) (digest : String) : FS :=
  if env.xattrAvailable = true then
    match xattr_setxattr env fs p digest with
    | .ok fs1 => fs1
    | .error _ => fs
  else fs

/-- Model of `write_sidecar_file`: write `digest + "\n"` (ASCII) to
`path.with_suffix(path.suffix + ".sha256")`, overwriting any existing file,
and return the sidecar path; a failed write raises. -/
def write_sidecar_file (env : Env) (fs : FS) (p : String) (digest : String) :
    Except PyExn (FS × String) :=
  let sidecar := sidecarPath p
  if env.sidecarFails sidecar = true then .error .sidecarWriteError
  else .ok (putFile fs sidecar (encodeAscii (digest ++ "\n")), sidecar)

/-! ## The watchdog handler `DigestWriter.on_closed` -/

/-- A `watchdog` filesystem event as seen by `on_closed`: a directory flag
and the source path (modelled by its final name component, the only part the
handler inspects). -/
structure FsEvent where
  isDir : Bool
  src_path : String

/-- Model of `file_path.relative_to(self.root)` as printed in the success log line. -/
def relativeTo (root p : String) : String :=
  if pyStartswith p (root ++ "/") = true then ⟨p.data.drop (root.data.length + 1)⟩ else p

def successLine (root fp digest : String) : String :=
  "[SHA-256] " ++ relativeTo root fp ++ " -> " ++ digest

def exnText : PyExn → String
  | .readError => "ReadError"
  | .attrError => "AttributeError"
  | .sidecarWriteError => "SidecarWriteError"

/-- The stderr line `[ERROR] Could not hash {path}: {e}` printed by the
handler's `except` clause. -/
def errLine (fp : String) (e : PyExn) : String :=
  "[ERROR] Could not hash " ++ fp ++ ": " ++ exnText e

/-- Model of `DigestWriter.on_closed`: returns the new filesystem state, the stdout
lines and the stderr lines.  Directory events, `.sha256`-suffixed names and
`.~`-prefixed names are ignored; the digest-and-persist body runs under
`try/except`, so a failure after the attribute write keeps the attribute
update (mirrored by returning `fs1` in the error branch). -/
def on_closed (env : Env) (root : String) (fs : FS) (ev : FsEvent) :
    FS × List String × List String :=
  if ev.isDir = true then (fs, [], [])
  else if pathSuffix ev.src_path = ".sha256" ∨ pyStartswith ev.src_path ".~" = true then
    (fs, [], [])
  else
    match compute_sha256 fs ev.src_path with
    | .error e => (fs, [], [errLine ev.src_path e])
    | .ok digest =>
      let fs1 := set_xattr_sha256 env fs ev.src_path digest
      match write_sidecar_file env fs1 ev.src_path digest with
      | .error e => (fs1, [], [errLine ev.src_path e])
      | .ok r => (r.1, [successLine root ev.src_path digest], [])

/-- Sequential processing of a stream of events by the watch session, in
arrival order, accumulating stdout and stderr. -/
def processEvents (env : Env) (root : String) : List FsEvent → FS → FS × List String × List String
  | [], fs => (fs, [], [])
  | ev :: rest, fs =>
    let r := on_closed env root fs ev
    let r2 := processEvents env root rest r.1
    (r2.1, r.2.1 ++ r2.2.1, r.2.2 ++ r2.2.2)

/-! ## The batch helper loop (`--oneshot` / `--verify`) -/

inductive Mode where
  | oneshot
  | verify
deriving DecidableEq

/-- Outcome of the batch helper: a normal run ending in `sys.exit(rc)` with
the accumulated stderr lines, or a crash from an exception the loop does not
catch (carrying the state and output at the moment it escapes). -/
inductive BatchResult where
  | ok (fs : FS) (rc : Nat) (errs : List String)
  | crash (fs : FS) (errs : List String) (e : PyExn)

def mismatchLine (fp : String) : String := "[SHA-256 ERROR] " ++ fp ++ " digest mismatch"

/-- The `for fp in files:` loop of the command-line helper: skip inputs whose
suffix is `.sha256`; digest the file (an unreadable file raises, uncaught);
in `--oneshot` write the attribute and the sidecar (a failed sidecar write
raises, uncaught); in `--verify` compare the digest against the stripped
sidecar text, a missing sidecar reading as `None` and hence mismatching. -/
def runBatch (env : Env) (mode : Mode) : List String → FS → Nat → List String → BatchResult
  | [], fs, rc, errs => .ok fs rc errs
  | fp :: rest, fs, rc, errs =>
    if pathSuffix fp = ".sha256" then runBatch env mode rest fs rc errs
    else
      match compute_sha256 fs fp with
      | .error e => .crash fs errs e
      | .ok calcd =>
        match mode with
        | .oneshot =>
          let fs1 := set_xattr_sha256 env fs fp calcd
          match write_sidecar_file env fs1 fp calcd with
          | .error e => .crash fs1 errs e
          | .ok r => runBatch env mode rest r.1 rc errs
        | .verify =>
          match fs.files (sidecarPath fp) with
          | some bytes =>
            if pyStrip (decodeAscii bytes) = calcd then runBatch env mode rest fs rc errs
            else runBatch env mode rest fs 1 (errs ++ [mismatchLine fp])
          | none => runBatch env mode rest fs 1 (errs ++ [mismatchLine fp])

/-- Entry point of the batch helper: run the loop with `rc = 0` and exit with
the final `rc`. -/
def batchMain (env : Env) (mode : Mode) (files : List String) (fs : FS) : BatchResult :=
  runBatch env mode files fs 0 []

/-! ## Concrete states used by witnesses and counterexamples -/

/-- Environment with the `xattr` module present and no injected failures. -/
def env0 : Env := ⟨true, fun _ => false, fun _ => false⟩

/-- Environment where every `xattr.setxattr` call raises `OSError`. -/
def envX : Env := ⟨true, fun _ => true, fun _ => false⟩

/-- A filesystem holding a single readable file `"x.sha256"`, no sidecar for
it and no attribute record. -/
def fsC9 : FS := ⟨fun p => if p = "x.sha256" then some [7] else none, fun _ => none, fun _ => 0⟩

/-- A filesystem holding a single empty file `"a"`. -/
def fsEmptyA : FS := ⟨fun p => if p = "a" then some [] else none, fun _ => none, fun _ => 0⟩

/-- A filesystem holding readable `"a.txt"` and an unreadable `"bad"`. -/
def fsC3 : FS := ⟨fun p => if p = "a.txt" then some [0] else none, fun _ => none, fun _ => 0⟩

/-- A filesystem holding a single readable file named exactly `".sha256"`. -/
def fsC4 : FS := ⟨fun p => if p = ".sha256" then some [] else none, fun _ => none, fun _ => 0⟩

/-- A filesystem holding a single readable file `"x.sha256"` and no sidecar
for it. -/
def fsC6 : FS := ⟨fun p => if p = "x.sha256" then some [5] else none, fun _ => none, fun _ => 0⟩

/-- A filesystem holding a single readable file `"x"` and no sidecar. -/
def fsC9x : FS := ⟨fun p => if p = "x" then some [] else none, fun _ => none, fun _ => 0⟩

/-- A filesystem where the sidecar of `"a"` stores the correct digest with
leading spaces and no trailing newline. -/
def fsC10 : FS :=
  ⟨fun p =>
    if p = "a" then some []
    else if p = "a.sha256" then some (encodeAscii ("  " ++ sha256hex [] ++ "")) else none,
   fun _ => none, fun _ => 0⟩

/-! ## Helper lemmas: digest shape, chunking, strings -/

theorem chunksGo_flatten (bs : Nat) (hbs : 0 < bs) :
    ∀ (fuel : Nat) (l : List Nat), l.length ≤ fuel → (chunksGo bs fuel l).flatten = l := by
  intro fuel
  induction fuel with
  | zero =>
    intro l hl
    have : l = [] := List.length_eq_zero.mp (Nat.le_zero.mp hl)
    subst this; rfl
  | succ n ih =>
    intro l hl
    cases l with
    | nil => rfl
    | cons x xs =>
      have hlen : ((x :: xs).drop bs).length ≤ n := by
        simp only [List.length_drop, List.length_cons] at *
        omega
      simp only [chunksGo, List.flatten_cons, ih _ hlen, List.take_append_drop]

theorem compute_sha256_eq (fs : FS) (p : String) (b : List Nat) (h : fs.files p = some b) :
    compute_sha256 fs p = .ok (sha256hex b) := by
  simp only [compute_sha256, compute_sha256_blocks, h]
  rw [chunksGo_flatten 8388608 (by norm_num) b.length b (Nat.le_refl _)]

theorem compute_sha256_none (fs : FS) (p : String) (h : fs.files p = none) :
    compute_sha256 fs p = .error .readError := by
  simp only [compute_sha256, compute_sha256_blocks, h]

theorem hexDigit_mem (n : Nat) : hexDigit n ∈ hexChars := by
  have h : n % 16 < 16 := Nat.mod_lt _ (by norm_num)
  unfold hexDigit
  have h16 : n % 16 < hexChars.length := by
    have hl : hexChars.length = 16 := rfl
    omega
  rw [List.getD_eq_getElem hexChars '0' h16]
  exact List.getElem_mem h16

theorem toHex8_length (w : Nat) : (toHex8 w).length = 8 := by
  simp [toHex8]

theorem toHex8_mem (w : Nat) : ∀ c ∈ toHex8 w, c ∈ hexChars := by
  intro c hc
  simp only [toHex8, List.mem_map] at hc
  obtain ⟨i, _, rfl⟩ := hc
  exact hexDigit_mem _

theorem sha256hex_length (msg : List Nat) : (sha256hex msg).length = 64 := by
  simp [sha256hex, String.length, toHex8_length]

theorem sha256hex_mem (msg : List Nat) : ∀ c ∈ (sha256hex msg).data, c ∈ hexChars := by
  intro c hc
  simp only [sha256hex, List.mem_append] at hc
  rcases hc with ((((((h | h) | h) | h) | h) | h) | h) | h <;> exact toHex8_mem _ _ h

theorem hexChars_not_space : ∀ c ∈ hexChars, isPySpace c = false := by decide

theorem sha256hex_ne_nil (msg : List Nat) : (sha256hex msg).data ≠ [] := by
  intro h
  have := sha256hex_length msg
  rw [String.length] at this
  rw [h] at this
  simp at this

set_option maxRecDepth 100000 in
theorem sha256hex_nil :
    sha256hex [] = "e3b0c44298fc1c149afbf4c8996fb92427ae41e4649b934ca495991b7852b855" := by
  rfl

theorem rfindDot_append (l₁ l₂ : List Char) :
    rfindDot (l₁ ++ l₂) =
      match rfindDot l₂ with
      | some j => some (l₁.length + j)
      | none => rfindDot l₁ := by
  induction l₁ with
  | nil =>
    cases h : rfindDot l₂ with
    | none => simp [h, rfindDot]
    | some j => simp [h]
  | cons c l ih =>
    have e : rfindDot ((c :: l) ++ l₂) =
        match rfindDot (l ++ l₂) with
        | some j => some (j + 1)
        | none => if c = '.' then some 0 else none := rfl
    rw [e, ih]
    cases h : rfindDot l₂ with
    | some j =>
      simp only [h, List.length_cons, Option.some.injEq]
      omega
    | none =>
      have e2 : rfindDot (c :: l) =
          match rfindDot l with
          | some j => some (j + 1)
          | none => if c = '.' then some 0 else none := rfl
      simp only [e2]

theorem pathSuffix_def (p : String) :
    pathSuffix p =
      match rfindDot p.data with
      | none => ""
      | some i => if 0 < i ∧ i + 1 < p.data.length then ⟨p.data.drop i⟩ else "" := rfl

theorem pathSuffix_concat (pre : List Char) (hpre : pre ≠ []) :
    pathSuffix ⟨pre ++ ".sha256".data⟩ = ".sha256" := by
  have hlen : 0 < pre.length := List.length_pos.mpr hpre
  have h7 : (".sha256".data).length = 7 := rfl
  have hidx : rfindDot ((⟨pre ++ ".sha256".data⟩ : String).data) = some pre.length := by
    have hd : (⟨pre ++ ".sha256".data⟩ : String).data = pre ++ ".sha256".data := rfl
    have hdot : rfindDot ".sha256".data = some 0 := rfl
    rw [hd, rfindDot_append, hdot]
    simp
  rw [pathSuffix_def]
  simp only [hidx]
  have hdd : (⟨pre ++ ".sha256".data⟩ : String).data = pre ++ ".sha256".data := rfl
  have hcond : 0 < pre.length ∧
      pre.length + 1 < ((⟨pre ++ ".sha256".data⟩ : String).data).length := by
    refine ⟨hlen, ?_⟩
    rw [hdd, List.length_append, h7]
    omega
  rw [if_pos hcond]
  apply String.ext
  show List.drop pre.length (pre ++ ".sha256".data) = ".sha256".data
  exact List.drop_left pre ".sha256".data

theorem pathSuffix_append_sha (q : String) (hq : q ≠ "") :
    pathSuffix (q ++ ".sha256") = ".sha256" := by
  have hdq : q.data ≠ [] := by
    intro h
    exact hq (String.ext (h.trans rfl))
  have heq : q ++ ".sha256" = ⟨q.data ++ ".sha256".data⟩ := String.ext (by simp)
  rw [heq]
  exact pathSuffix_concat q.data hdq

theorem pathSuffix_of_endswith (s : String) (hend : pyEndswith s ".sha256" = true)
    (hne : s ≠ ".sha256") : pathSuffix s = ".sha256" := by
  have h7 : (".sha256".data).length = 7 := rfl
  have hdrop : s.data.drop (s.data.length - 7) = ".sha256".data := by
    have h := hend
    simp only [pyEndswith, beq_iff_eq] at h
    rwa [h7] at h
  by_cases hlen : s.data.length ≤ 7
  · exfalso
    apply hne
    apply String.ext
    have h0 : s.data.length - 7 = 0 := by omega
    rwa [h0, List.drop_zero] at hdrop
  · push_neg at hlen
    have hdecomp : s.data = s.data.take (s.data.length - 7) ++ ".sha256".data := by
      rw [← hdrop, List.take_append_drop]
    have hprene : s.data.take (s.data.length - 7) ≠ [] := by
      intro h
      rw [h, List.nil_append] at hdecomp
      have hl := congrArg List.length hdecomp
      rw [h7] at hl
      omega
    have hs : s = ⟨s.data.take (s.data.length - 7) ++ ".sha256".data⟩ :=
      String.ext hdecomp
    rw [hs]
    exact pathSuffix_concat _ hprene

theorem pathSuffix_take_drop (p : String) :
    p.data = p.data.take (p.data.length - (pathSuffix p).data.length) ++ (pathSuffix p).data := by
  rw [pathSuffix_def]
  cases h : rfindDot p.data with
  | none => simp
  | some i =>
    simp only
    by_cases hc : 0 < i ∧ i + 1 < p.data.length
    · rw [if_pos hc]
      have hdata : ((⟨p.data.drop i⟩ : String)).data = p.data.drop i := rfl
      rw [hdata, List.length_drop]
      have hi : p.data.length - (p.data.length - i) = i := by omega
      rw [hi, List.take_append_drop]
    · rw [if_neg hc]
      simp

theorem sidecarPath_eq (p : String) : sidecarPath p = p ++ ".sha256" := by
  unfold sidecarPath with_suffix
  apply String.ext
  have hd : ((⟨p.data.take (p.data.length - (pathSuffix p).data.length) ++
      (pathSuffix p ++ ".sha256").data⟩ : String)).data =
      p.data.take (p.data.length - (pathSuffix p).data.length) ++
      (pathSuffix p ++ ".sha256").data := rfl
  rw [hd, String.data_append, String.data_append, ← List.append_assoc,
    ← pathSuffix_take_drop]

theorem sidecarPath_ne (p : String) : sidecarPath p ≠ p := by
  rw [sidecarPath_eq]
  intro h
  have hl := congrArg (fun s => s.data.length) h
  simp only [String.data_append, List.length_append] at hl
  have h7 : (".sha256".data).length = 7 := rfl
  rw [h7] at hl
  omega

theorem sidecarPath_inj (p q : String) (h : sidecarPath p = sidecarPath q) : p = q := by
  rw [sidecarPath_eq, sidecarPath_eq] at h
  have hd := congrArg String.data h
  simp only [String.data_append] at hd
  exact String.ext (List.append_cancel_right hd)

theorem dropWhile_append_all {α} (p : α → Bool) (w m : List α)
    (hw : ∀ c ∈ w, p c = true) : (w ++ m).dropWhile p = m.dropWhile p := by
  induction w with
  | nil => simp
  | cons a w ih =>
    rw [List.cons_append, List.dropWhile_cons_of_pos (hw a (List.mem_cons_self a w))]
    exact ih (fun c hc => hw c (List.mem_cons_of_mem a hc))

theorem dropWhile_all_false {α} (p : α → Bool) (m : List α)
    (hm : ∀ c ∈ m, p c = false) : m.dropWhile p = m := by
  cases m with
  | nil => rfl
  | cons a l =>
    rw [List.dropWhile_cons_of_neg]
    rw [hm a (List.mem_cons_self a l)]
    simp

theorem stripChars_spec (w1 m w2 : List Char)
    (hw1 : ∀ c ∈ w1, isPySpace c = true) (hw2 : ∀ c ∈ w2, isPySpace c = true)
    (hm : ∀ c ∈ m, isPySpace c = false) (hne : m ≠ []) :
    stripChars (w1 ++ m ++ w2) = m := by
  unfold stripChars
  have h1 : (w1 ++ m ++ w2).dropWhile isPySpace = m ++ w2 := by
    rw [List.append_assoc, dropWhile_append_all isPySpace w1 (m ++ w2) hw1]
    cases m with
    | nil => exact absurd rfl hne
    | cons a l =>
      rw [List.cons_append]
      exact List.dropWhile_cons_of_neg (by simp [hm a (List.mem_cons_self a l)])
  rw [h1, List.reverse_append]
  rw [dropWhile_append_all isPySpace w2.reverse m.reverse
    (fun c hc => hw2 c (List.mem_reverse.mp hc))]
  rw [dropWhile_all_false isPySpace m.reverse (fun c hc => hm c (List.mem_reverse.mp hc))]
  exact List.reverse_reverse m

theorem decode_encode (s : String) : decodeAscii (encodeAscii s) = s := by
  apply String.ext
  show (encodeAscii s).map Char.ofNat = s.data
  unfold encodeAscii
  rw [List.map_map]
  have hcomp : (Char.ofNat ∘ Char.toNat) = fun c : Char => c := by
    funext c
    exact Char.ofNat_toNat c
  rw [hcomp]
  simp

theorem pyStrip_digest_newline (msg : List Nat) :
    pyStrip (decodeAscii (encodeAscii (sha256hex msg ++ "\n"))) = sha256hex msg := by
  rw [decode_encode]
  unfold pyStrip
  apply String.ext
  have hd : (sha256hex msg ++ "\n").data = [] ++ (sha256hex msg).data ++ "\n".data := by
    simp
  rw [hd]
  have hstrip := stripChars_spec [] (sha256hex msg).data "\n".data
    (by intro c hc; simp at hc)
    (by intro c hc; simp only [show ("\n".data) = ['\n'] from rfl, List.mem_singleton] at hc
        subst hc; rfl)
    (fun c hc => hexChars_not_space c (sha256hex_mem msg c hc))
    (sha256hex_ne_nil msg)
  rw [hstrip]

theorem set_xattr_files (env : Env) (fs : FS) (p d : String) :
    (set_xattr_sha256 env fs p d).files = fs.files := by
  unfold set_xattr_sha256 xattr_setxattr putXattr
  by_cases h1 : env.xattrAvailable = true
  · rw [if_pos h1]
    by_cases h2 : env.xattrFails p = true
    · rw [if_pos h2]
    · rw [if_neg h2]
  · rw [if_neg h1]

theorem write_sidecar_ok (env : Env) (fs : FS) (p d : String)
    (h : env.sidecarFails (sidecarPath p) = false) :
    write_sidecar_file env fs p d =
      .ok (putFile fs (sidecarPath p) (encodeAscii (d ++ "\n")), sidecarPath p) := by
  unfold write_sidecar_file
  rw [show (if env.sidecarFails (sidecarPath p) = true then
      (.error .sidecarWriteError : Except PyExn (FS × String))
    else .ok (putFile fs (sidecarPath p) (encodeAscii (d ++ "\n")), sidecarPath p)) =
      .ok (putFile fs (sidecarPath p) (encodeAscii (d ++ "\n")), sidecarPath p) from by
    rw [if_neg]; rw [h]; simp]

theorem write_sidecar_fail (env : Env) (fs : FS) (p d : String)
    (h : env.sidecarFails (sidecarPath p) = true) :
    write_sidecar_file env fs p d = .error .sidecarWriteError := by
  unfold write_sidecar_file
  rw [if_pos h]

theorem putFile_files (fs : FS) (k : String) (v : List Nat) (q : String) :
    (putFile fs k v).files q = if q = k then some v else fs.files q := rfl

theorem putFile_xattrs (fs : FS) (k : String) (v : List Nat) :
    (putFile fs k v).xattrs = fs.xattrs := rfl

theorem set_xattr_xattrs_point (env : Env) (fs : FS) (p d : String) (k : String) :
    (set_xattr_sha256 env fs p d).xattrs k =
      if env.xattrAvailable = true ∧ env.xattrFails p = false ∧ k = p
      then some (encodeAscii d) else fs.xattrs k := by
  unfold set_xattr_sha256 xattr_setxattr putXattr
  by_cases h1 : env.xattrAvailable = true
  · rw [if_pos h1]
    by_cases h2 : env.xattrFails p = true
    · rw [if_pos h2, if_neg]
      intro hcon
      rw [hcon.2.1] at h2
      simp at h2
    · rw [if_neg h2]
      simp only
      by_cases h3 : k = p
      · rw [if_pos h3, if_pos ⟨h1, by simpa using h2, h3⟩]
      · rw [if_neg h3, if_neg (by intro hcon; exact h3 hcon.2.2)]
  · rw [if_neg h1, if_neg (by intro hcon; exact h1 hcon.1)]

theorem runBatch_append (env : Env) (mode : Mode) (l₁ l₂ : List String) (fs fs1 : FS)
    (rc rc1 : Nat) (errs errs1 : List String)
    (h : runBatch env mode l₁ fs rc errs = .ok fs1 rc1 errs1) :
    runBatch env mode (l₁ ++ l₂) fs rc errs = runBatch env mode l₂ fs1 rc1 errs1 := by
  induction l₁ generalizing fs rc errs with
  | nil =>
    simp only [runBatch, BatchResult.ok.injEq] at h
    obtain ⟨rfl, rfl, rfl⟩ := h
    rw [List.nil_append]
  | cons fp rest ih =>
    rw [List.cons_append]
    by_cases hsuf : pathSuffix fp = ".sha256"
    · simp only [runBatch, if_pos hsuf] at h ⊢
      exact ih fs rc errs h
    · cases hc : compute_sha256 fs fp with
      | error e =>
        simp only [runBatch, if_neg hsuf, hc] at h
        exact BatchResult.noConfusion h
      | ok calcd =>
        cases mode with
        | oneshot =>
          cases hw : write_sidecar_file env (set_xattr_sha256 env fs fp calcd) fp calcd with
          | error e =>
            simp only [runBatch, if_neg hsuf, hc, hw] at h
            exact BatchResult.noConfusion h
          | ok r =>
            simp only [runBatch, if_neg hsuf, hc, hw] at h ⊢
            exact ih r.1 rc errs h
        | verify =>
          cases hsc : fs.files (sidecarPath fp) with
          | none =>
            simp only [runBatch, if_neg hsuf, hc, hsc] at h ⊢
            exact ih fs 1 (errs ++ [mismatchLine fp]) h
          | some bytes =>
            by_cases heq : pyStrip (decodeAscii bytes) = calcd
            · simp only [runBatch, if_neg hsuf, hc, hsc, if_pos heq] at h ⊢
              exact ih fs rc errs h
            · simp only [runBatch, if_neg hsuf, hc, hsc, if_neg heq] at h ⊢
              exact ih fs 1 (errs ++ [mismatchLine fp]) h

/-- Behaviour of the `--oneshot` loop on a list of inputs that are all
readable (with writable sidecars) relative to a reference state `fs0` that
agrees with the running state on every non-sidecar-named path: the run
succeeds with `rc` and `errs` untouched, non-sidecar files keep their
contents, every write targets the sidecar (or attribute) of some processed
input, and each processed input ends up with a correct sidecar and (when the
attribute sink is available and does not fail) a correct attribute record. -/
theorem oneshot_loop (env : Env) (l : List String) (fs fs0 : FS) (rc : Nat) (errs : List String)
    (hagree : ∀ p, pathSuffix p ≠ ".sha256" → fs.files p = fs0.files p)
    (h : ∀ p ∈ l, pathSuffix p ≠ ".sha256" →
      p ≠ "" ∧ (∃ b, fs0.files p = some b) ∧ env.sidecarFails (p ++ ".sha256") = false) :
    ∃ fs1, runBatch env .oneshot l fs rc errs = .ok fs1 rc errs ∧
      (∀ p, pathSuffix p ≠ ".sha256" → fs1.files p = fs0.files p) ∧
      (∀ k, fs1.files k = fs.files k ∨
        ∃ q, q ∈ l ∧ pathSuffix q ≠ ".sha256" ∧ k = q ++ ".sha256" ∧
          ∃ b, fs0.files q = some b ∧ fs1.files k = some (encodeAscii (sha256hex b ++ "\n"))) ∧
      (∀ p ∈ l, pathSuffix p ≠ ".sha256" → ∀ b, fs0.files p = some b →
        fs1.files (p ++ ".sha256") = some (encodeAscii (sha256hex b ++ "\n"))) ∧
      (∀ k, fs1.xattrs k = fs.xattrs k ∨
        ∃ q, q ∈ l ∧ pathSuffix q ≠ ".sha256" ∧ k = q ∧
          ∃ b, fs0.files q = some b ∧ fs1.xattrs k = some (encodeAscii (sha256hex b))) ∧
      (∀ p ∈ l, pathSuffix p ≠ ".sha256" → env.xattrAvailable = true → env.xattrFails p = false →
        ∀ b, fs0.files p = some b → fs1.xattrs p = some (encodeAscii (sha256hex b))) := by
  induction l generalizing fs with
  | nil =>
    refine ⟨fs, rfl, hagree, fun k => Or.inl rfl, ?_, fun k => Or.inl rfl, ?_⟩
    · intro p hp
      exact absurd hp (List.not_mem_nil p)
    · intro p hp
      exact absurd hp (List.not_mem_nil p)
  | cons fp rest ih =>
    by_cases hsuf : pathSuffix fp = ".sha256"
    · have hrun : runBatch env .oneshot (fp :: rest) fs rc errs =
          runBatch env .oneshot rest fs rc errs := by
        simp only [runBatch, if_pos hsuf]
      obtain ⟨fs1, e, hag, hdisj, hfin, hxdisj, hxfin⟩ :=
        ih fs hagree (fun p hp hs => h p (List.mem_cons_of_mem _ hp) hs)
      refine ⟨fs1, hrun.trans e, hag, ?_, ?_, ?_, ?_⟩
      · intro k
        refine (hdisj k).imp id ?_
        rintro ⟨q, hq, hqs, hk, b, hb, hv⟩
        exact ⟨q, List.mem_cons_of_mem _ hq, hqs, hk, b, hb, hv⟩
      · intro p hp hps
        rcases List.mem_cons.mp hp with rfl | hp2
        · exact absurd hsuf hps
        · exact hfin p hp2 hps
      · intro k
        refine (hxdisj k).imp id ?_
        rintro ⟨q, hq, hqs, hk, b, hb, hv⟩
        exact ⟨q, List.mem_cons_of_mem _ hq, hqs, hk, b, hb, hv⟩
      · intro p hp hps
        rcases List.mem_cons.mp hp with rfl | hp2
        · exact absurd hsuf hps
        · exact hxfin p hp2 hps
    · obtain ⟨hne, ⟨b, hb⟩, hwf⟩ := h fp (List.mem_cons_self fp rest) hsuf
      have hread : fs.files fp = some b := (hagree fp hsuf).trans hb
      have hcomp : compute_sha256 fs fp = .ok (sha256hex b) := compute_sha256_eq fs fp b hread
      have hwf2 : env.sidecarFails (sidecarPath fp) = false := by
        rw [sidecarPath_eq]
        exact hwf
      have hw : write_sidecar_file env (set_xattr_sha256 env fs fp (sha256hex b)) fp
            (sha256hex b) =
          .ok (putFile (set_xattr_sha256 env fs fp (sha256hex b)) (sidecarPath fp)
            (encodeAscii (sha256hex b ++ "\n")), sidecarPath fp) :=
        write_sidecar_ok env _ fp (sha256hex b) hwf2
      have hrun : runBatch env .oneshot (fp :: rest) fs rc errs =
          runBatch env .oneshot rest
            (putFile (set_xattr_sha256 env fs fp (sha256hex b)) (sidecarPath fp)
              (encodeAscii (sha256hex b ++ "\n"))) rc errs := by
        simp only [runBatch, if_neg hsuf, hcomp, hw]
      have hxf : (set_xattr_sha256 env fs fp (sha256hex b)).files = fs.files :=
        set_xattr_files env fs fp (sha256hex b)
      have hfs2files : ∀ k,
          (putFile (set_xattr_sha256 env fs fp (sha256hex b)) (sidecarPath fp)
            (encodeAscii (sha256hex b ++ "\n"))).files k =
          if k = fp ++ ".sha256" then some (encodeAscii (sha256hex b ++ "\n")) else fs.files k := by
        intro k
        rw [putFile_files, hxf, sidecarPath_eq]
      have hfs2x : ∀ k,
          (putFile (set_xattr_sha256 env fs fp (sha256hex b)) (sidecarPath fp)
            (encodeAscii (sha256hex b ++ "\n"))).xattrs k =
          if env.xattrAvailable = true ∧ env.xattrFails fp = false ∧ k = fp
          then some (encodeAscii (sha256hex b)) else fs.xattrs k := by
        intro k
        rw [putFile_xattrs, set_xattr_xattrs_point]
      have hagree2 : ∀ p, pathSuffix p ≠ ".sha256" →
          (putFile (set_xattr_sha256 env fs fp (sha256hex b)) (sidecarPath fp)
            (encodeAscii (sha256hex b ++ "\n"))).files p = fs0.files p := by
        intro p hp
        rw [hfs2files p, if_neg, hagree p hp]
        intro hpe
        rw [hpe] at hp
        exact hp (pathSuffix_append_sha fp hne)
      obtain ⟨fs1, e, hag, hdisj, hfin, hxdisj, hxfin⟩ :=
        ih _ hagree2 (fun p hp hs => h p (List.mem_cons_of_mem _ hp) hs)
      have sha_cancel : ∀ q : String, fp ++ ".sha256" = q ++ ".sha256" → q = fp := by
        intro q hq
        have hd := congrArg String.data hq
        simp only [String.data_append] at hd
        exact (String.ext (List.append_cancel_right hd)).symm
      refine ⟨fs1, hrun.trans e, hag, ?_, ?_, ?_, ?_⟩
      · -- files change only at sidecars of processed inputs
        intro k
        rcases hdisj k with hk | ⟨q, hq, hqs, hk, b2, hb2, hv⟩
        · rw [hfs2files k] at hk
          by_cases hke : k = fp ++ ".sha256"
          · rw [if_pos hke] at hk
            exact Or.inr ⟨fp, List.mem_cons_self fp rest, hsuf, hke, b, hb, hk⟩
          · rw [if_neg hke] at hk
            exact Or.inl hk
        · exact Or.inr ⟨q, List.mem_cons_of_mem _ hq, hqs, hk, b2, hb2, hv⟩
      · -- every processed input has a correct sidecar at the end
        intro p hp hps b2 hb2
        rcases List.mem_cons.mp hp with rfl | hp2
        · have hb12 : b2 = b := by
            rw [hb] at hb2
            exact (Option.some.inj hb2).symm
          subst hb12
          rcases hdisj (p ++ ".sha256") with hk | ⟨q, _, _, hk, b3, hb3, hv⟩
          · rw [hfs2files, if_pos rfl] at hk
            exact hk
          · have hq : q = p := sha_cancel q hk
            subst hq
            rw [hb] at hb3
            rw [hv, Option.some.inj hb3]
        · exact hfin p hp2 hps b2 hb2
      · -- xattrs change only at processed inputs
        intro k
        rcases hxdisj k with hk | ⟨q, hq, hqs, hk, b2, hb2, hv⟩
        · rw [hfs2x k] at hk
          by_cases hke : env.xattrAvailable = true ∧ env.xattrFails fp = false ∧ k = fp
          · rw [if_pos hke] at hk
            exact Or.inr ⟨fp, List.mem_cons_self fp rest, hsuf, hke.2.2, b, hb, hk⟩
          · rw [if_neg hke] at hk
            exact Or.inl hk
        · exact Or.inr ⟨q, List.mem_cons_of_mem _ hq, hqs, hk, b2, hb2, hv⟩
      · -- every processed input has a correct attribute record at the end
        intro p hp hps hav hnf b2 hb2
        rcases List.mem_cons.mp hp with rfl | hp2
        · have hb12 : b2 = b := by
            rw [hb] at hb2
            exact (Option.some.inj hb2).symm
          subst hb12
          rcases hxdisj p with hk | ⟨q, _, _, hk, b3, hb3, hv⟩
          · rw [hfs2x, if_pos ⟨hav, hnf, rfl⟩] at hk
            exact hk
          · subst hk
            rw [hb] at hb3
            rw [hv, Option.some.inj hb3]
        · exact hxfin p hp2 hps hav hnf b2 hb2

/-- Behaviour of the `--verify` loop when every non-skipped input is
readable: the filesystem is untouched, the run terminates normally, the exit
code only ever moves from its initial value to `1`, and any non-skipped
input whose sidecar is missing forces exit code `1` and a reported mismatch
line. -/
theorem verify_loop (env : Env) (l : List String) (fs : FS) (rc : Nat) (errs : List String)
    (hall : ∀ p ∈ l, pathSuffix p ≠ ".sha256" → ∃ b, fs.files p = some b) :
    ∃ rc2 errs2, runBatch env .verify l fs rc errs = .ok fs rc2 (errs ++ errs2) ∧
      (rc2 = rc ∨ rc2 = 1) ∧
      (∀ F ∈ l, pathSuffix F ≠ ".sha256" → fs.files (sidecarPath F) = none →
        rc2 = 1 ∧ mismatchLine F ∈ errs2) := by
  induction l generalizing rc errs with
  | nil =>
    refine ⟨rc, [], by simp [runBatch], Or.inl rfl, ?_⟩
    intro F hF
    exact absurd hF (List.not_mem_nil F)
  | cons fp rest ih =>
    by_cases hsuf : pathSuffix fp = ".sha256"
    · have hrun : runBatch env .verify (fp :: rest) fs rc errs =
          runBatch env .verify rest fs rc errs := by
        simp only [runBatch, if_pos hsuf]
      obtain ⟨rc2, errs2, e, hrc, hmis⟩ :=
        ih rc errs (fun p hp hs => hall p (List.mem_cons_of_mem _ hp) hs)
      refine ⟨rc2, errs2, hrun.trans e, hrc, ?_⟩
      intro F hF hFs hFn
      rcases List.mem_cons.mp hF with rfl | hF2
      · exact absurd hsuf hFs
      · exact hmis F hF2 hFs hFn
    · obtain ⟨b, hb⟩ := hall fp (List.mem_cons_self fp rest) hsuf
      have hcomp : compute_sha256 fs fp = .ok (sha256hex b) := compute_sha256_eq fs fp b hb
      cases hsc : fs.files (sidecarPath fp) with
      | none =>
        have hrun : runBatch env .verify (fp :: rest) fs rc errs =
            runBatch env .verify rest fs 1 (errs ++ [mismatchLine fp]) := by
          simp only [runBatch, if_neg hsuf, hcomp, hsc]
        obtain ⟨rc2, errs2, e, hrc, hmis⟩ :=
          ih 1 (errs ++ [mismatchLine fp]) (fun p hp hs => hall p (List.mem_cons_of_mem _ hp) hs)
        have hrc1 : rc2 = 1 := by
          rcases hrc with h1 | h1 <;> exact h1
        refine ⟨rc2, [mismatchLine fp] ++ errs2, ?_, Or.inr hrc1, ?_⟩
        · rw [hrun, e, List.append_assoc]
        · intro F hF hFs hFn
          rcases List.mem_cons.mp hF with rfl | hF2
          · exact ⟨hrc1, List.mem_append_left _ (List.mem_singleton.mpr rfl)⟩
          · exact ⟨hrc1, List.mem_append_right _ (hmis F hF2 hFs hFn).2⟩
      | some bytes =>
        by_cases heq : pyStrip (decodeAscii bytes) = sha256hex b
        · have hrun : runBatch env .verify (fp :: rest) fs rc errs =
              runBatch env .verify rest fs rc errs := by
            simp only [runBatch, if_neg hsuf, hcomp, hsc, if_pos heq]
          obtain ⟨rc2, errs2, e, hrc, hmis⟩ :=
            ih rc errs (fun p hp hs => hall p (List.mem_cons_of_mem _ hp) hs)
          refine ⟨rc2, errs2, hrun.trans e, hrc, ?_⟩
          intro F hF hFs hFn
          rcases List.mem_cons.mp hF with rfl | hF2
          · rw [hsc] at hFn
            exact Option.noConfusion hFn
          · exact hmis F hF2 hFs hFn
        · have hrun : runBatch env .verify (fp :: rest) fs rc errs =
              runBatch env .verify rest fs 1 (errs ++ [mismatchLine fp]) := by
            simp only [runBatch, if_neg hsuf, hcomp, hsc, if_neg heq]
          obtain ⟨rc2, errs2, e, hrc, hmis⟩ :=
            ih 1 (errs ++ [mismatchLine fp]) (fun p hp hs => hall p (List.mem_cons_of_mem _ hp) hs)
          have hrc1 : rc2 = 1 := by
            rcases hrc with h1 | h1 <;> exact h1
          refine ⟨rc2, [mismatchLine fp] ++ errs2, ?_, Or.inr hrc1, ?_⟩
          · rw [hrun, e, List.append_assoc]
          · intro F hF hFs hFn
            rcases List.mem_cons.mp hF with rfl | hF2
            · exact ⟨hrc1, List.mem_append_left _ (List.mem_singleton.mpr rfl)⟩
            · exact ⟨hrc1, List.mem_append_right _ (hmis F hF2 hFs hFn).2⟩

/-! ## Claim theorems -/

/-- C1: `compute_sha256` is deterministic — it depends only on the stored
byte sequence, not on which filesystem, path or metadata carries it — always
produces a 64-character lowercase-hexadecimal digest, and on a zero-length
file returns exactly the reference SHA-256 of the empty byte sequence. -/
theorem claim_C1 :
    (∀ (fs₁ fs₂ : FS) (p₁ p₂ : String) (b : List Nat),
        fs₁.files p₁ = some b → fs₂.files p₂ = some b →
        compute_sha256 fs₁ p₁ = compute_sha256 fs₂ p₂) ∧
    (∀ (fs : FS) (p : String) (b : List Nat), fs.files p = some b →
        compute_sha256 fs p = .ok (sha256hex b) ∧
        (sha256hex b).length = 64 ∧ ∀ c ∈ (sha256hex b).data, c ∈ hexChars) ∧
    (∀ (fs : FS) (p : String), fs.files p = some [] →
        compute_sha256 fs p =
          .ok "e3b0c44298fc1c149afbf4c8996fb92427ae41e4649b934ca495991b7852b855") := by
  refine ⟨?_, ?_, ?_⟩
  · intro fs₁ fs₂ p₁ p₂ b h₁ h₂
    rw [compute_sha256_eq fs₁ p₁ b h₁, compute_sha256_eq fs₂ p₂ b h₂]
  · intro fs p b h
    exact ⟨compute_sha256_eq fs p b h, sha256hex_length b, sha256hex_mem b⟩
  · intro fs p h
    rw [compute_sha256_eq fs p [] h, sha256hex_nil]

/-- C1 witness: the digest of the concrete empty file `"a"`. -/
theorem claim_C1_witness :
    compute_sha256 fsEmptyA "a" =
      .ok "e3b0c44298fc1c149afbf4c8996fb92427ae41e4649b934ca495991b7852b855" :=
  claim_C1.2.2 fsEmptyA "a" rfl

/-- C5: the sidecar write targets exactly the original path with `".sha256"`
appended after the existing extension, and writes as the full file content
exactly the digest followed by one newline, ASCII-encoded, overwriting any
previous sidecar (`putFile` replaces the stored value unconditionally).
The name must be nonempty because `pathlib.with_suffix` raises on an empty
name. -/
theorem claim_C5 (env : Env) (fs : FS) (p d : String) (hp : p ≠ "")
    (hw : env.sidecarFails (p ++ ".sha256") = false) :
    sidecarPath p = p ++ ".sha256" ∧
    write_sidecar_file env fs p d =
      .ok (putFile fs (p ++ ".sha256") (encodeAscii (d ++ "\n")), p ++ ".sha256") := by
  refine ⟨sidecarPath_eq p, ?_⟩
  have hw2 : env.sidecarFails (sidecarPath p) = false := by
    rw [sidecarPath_eq]
    exact hw
  rw [write_sidecar_ok env fs p d hw2, sidecarPath_eq]

/-- C5 witness: the sidecar of `"report.csv"` is `"report.csv.sha256"` and
holds the digest text plus newline. -/
theorem claim_C5_witness :
    sidecarPath "report.csv" = "report.csv" ++ ".sha256" ∧
    write_sidecar_file env0 fsEmptyA "report.csv" "d" =
      .ok (putFile fsEmptyA ("report.csv" ++ ".sha256") (encodeAscii ("d" ++ "\n")),
        "report.csv" ++ ".sha256") :=
  claim_C5 env0 fsEmptyA "report.csv" "d" (by decide) rfl

/-- C8: the Attribute Sink is best-effort and independent: it never touches
file contents, any failure (module unavailable or `OSError`) makes the call
a complete no-op, and the subsequent sidecar write behaves identically (same
success or failure, same resulting file contents and returned path) whether
or not the attribute write happened or failed. -/
theorem claim_C8 (env : Env) (fs : FS) (p d : String) :
    (set_xattr_sha256 env fs p d).files = fs.files ∧
    ((env.xattrAvailable = false ∨ env.xattrFails p = true) →
      set_xattr_sha256 env fs p d = fs) ∧
    (write_sidecar_file env (set_xattr_sha256 env fs p d) p d).map (fun r => (r.1.files, r.2)) =
      (write_sidecar_file env fs p d).map (fun r => (r.1.files, r.2)) := by
  refine ⟨set_xattr_files env fs p d, ?_, ?_⟩
  · intro h
    unfold set_xattr_sha256 xattr_setxattr
    rcases h with h | h
    · rw [if_neg (by rw [h]; simp)]
    · by_cases ha : env.xattrAvailable = true
      · rw [if_pos ha, if_pos h]
      · rw [if_neg ha]
  · by_cases hsf : env.sidecarFails (sidecarPath p) = true
    · rw [write_sidecar_fail env _ p d hsf, write_sidecar_fail env fs p d hsf]
    · have hsf2 : env.sidecarFails (sidecarPath p) = false := by
        simpa using hsf
      rw [write_sidecar_ok env _ p d hsf2, write_sidecar_ok env fs p d hsf2]
      have hfe : (putFile (set_xattr_sha256 env fs p d) (sidecarPath p)
            (encodeAscii (d ++ "\n"))).files =
          (putFile fs (sidecarPath p) (encodeAscii (d ++ "\n"))).files := by
        funext q
        rw [putFile_files, putFile_files, set_xattr_files]
      simp only [Except.map, hfe]

/-- C8 witness: with every attribute write failing, the call is a no-op and
the sidecar write is unaffected. -/
theorem claim_C8_witness :
    set_xattr_sha256 envX fsEmptyA "a" "d" = fsEmptyA ∧
    (write_sidecar_file envX (set_xattr_sha256 envX fsEmptyA "a" "d") "a" "d").map
        (fun r => (r.1.files, r.2)) =
      (write_sidecar_file envX fsEmptyA "a" "d").map (fun r => (r.1.files, r.2)) :=
  ⟨(claim_C8 envX fsEmptyA "a" "d").2.1 (Or.inr rfl), (claim_C8 envX fsEmptyA "a" "d").2.2⟩

/-- C2: round trip — for a readable file whose sidecar is writable, running
the batch write mode and then the batch verify mode on the same file yields
a match: the verify pass leaves the exit code at `0` and reports no
mismatch.  (A `.sha256`-suffixed input is skipped by both modes and equally
contributes no mismatch.) -/
theorem claim_C2 (env : Env) (fs : FS) (F : String) (b : List Nat)
    (hread : fs.files F = some b)
    (hw : env.sidecarFails (sidecarPath F) = false) :
    ∃ fs1, batchMain env .oneshot [F] fs = .ok fs1 0 [] ∧
      batchMain env .verify [F] fs1 = .ok fs1 0 [] := by
  by_cases hsuf : pathSuffix F = ".sha256"
  · exact ⟨fs, by simp only [batchMain, runBatch, if_pos hsuf],
      by simp only [batchMain, runBatch, if_pos hsuf]⟩
  · have hcomp := compute_sha256_eq fs F b hread
    have hwok := write_sidecar_ok env (set_xattr_sha256 env fs F (sha256hex b)) F
      (sha256hex b) hw
    refine ⟨putFile (set_xattr_sha256 env fs F (sha256hex b)) (sidecarPath F)
      (encodeAscii (sha256hex b ++ "\n")), ?_, ?_⟩
    · simp only [batchMain, runBatch, if_neg hsuf, hcomp, hwok]
    · have hreadF : (putFile (set_xattr_sha256 env fs F (sha256hex b)) (sidecarPath F)
          (encodeAscii (sha256hex b ++ "\n"))).files F = some b := by
        rw [putFile_files, if_neg (fun he => sidecarPath_ne F he.symm), set_xattr_files]
        exact hread
      have hcomp1 := compute_sha256_eq _ F b hreadF
      have hsc1 : (putFile (set_xattr_sha256 env fs F (sha256hex b)) (sidecarPath F)
          (encodeAscii (sha256hex b ++ "\n"))).files (sidecarPath F) =
          some (encodeAscii (sha256hex b ++ "\n")) := by
        rw [putFile_files, if_pos rfl]
      have hstrip := pyStrip_digest_newline b
      simp only [batchMain, runBatch, if_neg hsuf, hcomp1, hsc1, if_pos hstrip]

/-- C2 witness: write then verify on the concrete empty file `"a"`. -/
theorem claim_C2_witness :
    ∃ fs1, batchMain env0 .oneshot ["a"] fsEmptyA = .ok fs1 0 [] ∧
      batchMain env0 .verify ["a"] fs1 = .ok fs1 0 [] :=
  claim_C2 env0 fsEmptyA "a" [] rfl rfl

/-- C10: the verify comparison strips leading and trailing whitespace from
the stored sidecar text before comparing, so a sidecar holding the correct
digest surrounded by extra whitespace (missing newline, extra blank line,
leading spaces) still verifies as a match. -/
theorem claim_C10 (env : Env) (fs : FS) (F : String) (b : List Nat) (w1 w2 : String)
    (hread : fs.files F = some b) (hsuf : pathSuffix F ≠ ".sha256")
    (hsc : fs.files (sidecarPath F) = some (encodeAscii (w1 ++ sha256hex b ++ w2)))
    (hw1 : ∀ c ∈ w1.data, isPySpace c = true) (hw2 : ∀ c ∈ w2.data, isPySpace c = true) :
    batchMain env .verify [F] fs = .ok fs 0 [] := by
  have hcomp := compute_sha256_eq fs F b hread
  have hstrip : pyStrip (decodeAscii (encodeAscii (w1 ++ sha256hex b ++ w2))) = sha256hex b := by
    rw [decode_encode]
    unfold pyStrip
    apply String.ext
    show stripChars ((w1 ++ sha256hex b ++ w2).data) = (sha256hex b).data
    have hd : (w1 ++ sha256hex b ++ w2).data = w1.data ++ (sha256hex b).data ++ w2.data := by
      simp
    rw [hd]
    exact stripChars_spec w1.data (sha256hex b).data w2.data hw1 hw2
      (fun c hc => hexChars_not_space c (sha256hex_mem b c hc)) (sha256hex_ne_nil b)
  simp only [batchMain, runBatch, if_neg hsuf, hcomp, hsc, if_pos hstrip]

/-- C10 witness: the sidecar of `"a"` stores the right digest with two
leading spaces and no newline, and verify still exits 0 with no mismatch. -/
theorem claim_C10_witness :
    batchMain env0 .verify ["a"] fsC10 = .ok fsC10 0 [] :=
  claim_C10 env0 fsC10 "a" [] "  " "" rfl (by decide) rfl (by decide) (by decide)

/-- C7: watch-loop error isolation — on a qualifying event whose processing
fails (the file is unreadable, or its sidecar write fails), `on_closed`
returns normally with file contents unchanged, prints nothing to stdout and
exactly one stderr line that contains the offending path, and the event
stream continues to be processed from the resulting state. -/
theorem claim_C7 (env : Env) (root : String) (fs : FS) (ev : FsEvent)
    (hdir : ev.isDir = false)
    (hsuf : pathSuffix ev.src_path ≠ ".sha256")
    (htmp : pyStartswith ev.src_path ".~" = false)
    (hfail : fs.files ev.src_path = none ∨
      (∃ b, fs.files ev.src_path = some b ∧
        env.sidecarFails (sidecarPath ev.src_path) = true)) :
    ∃ fs1 e, on_closed env root fs ev = (fs1, [], [errLine ev.src_path e]) ∧
      fs1.files = fs.files ∧
      List.IsInfix ev.src_path.data (errLine ev.src_path e).data ∧
      ∀ rest, (processEvents env root (ev :: rest) fs).1 =
        (processEvents env root rest fs1).1 := by
  have hfilter : ¬(pathSuffix ev.src_path = ".sha256" ∨
      pyStartswith ev.src_path ".~" = true) := by
    rintro (h | h)
    · exact hsuf h
    · rw [htmp] at h
      exact Bool.noConfusion h
  have hinf : ∀ e, List.IsInfix ev.src_path.data (errLine ev.src_path e).data := by
    intro e
    refine ⟨"[ERROR] Could not hash ".data, (": " ++ exnText e).data, ?_⟩
    show "[ERROR] Could not hash ".data ++ ev.src_path.data ++ (": " ++ exnText e).data =
      (errLine ev.src_path e).data
    simp [errLine, List.append_assoc]
  rcases hfail with hnone | ⟨b, hsome, hsf⟩
  · have hcomp := compute_sha256_none fs ev.src_path hnone
    have hoc : on_closed env root fs ev = (fs, [], [errLine ev.src_path .readError]) := by
      simp only [on_closed, hdir, Bool.false_eq_true, if_false, if_neg hfilter, hcomp]
    refine ⟨fs, .readError, hoc, rfl, hinf _, ?_⟩
    intro rest
    simp only [processEvents, hoc]
  · have hcomp := compute_sha256_eq fs ev.src_path b hsome
    have hwfail := write_sidecar_fail env (set_xattr_sha256 env fs ev.src_path (sha256hex b))
      ev.src_path (sha256hex b) hsf
    have hoc : on_closed env root fs ev =
        (set_xattr_sha256 env fs ev.src_path (sha256hex b), [],
          [errLine ev.src_path .sidecarWriteError]) := by
      simp only [on_closed, hdir, Bool.false_eq_true, if_false, if_neg hfilter, hcomp, hwfail]
    refine ⟨set_xattr_sha256 env fs ev.src_path (sha256hex b), .sidecarWriteError, hoc,
      set_xattr_files env fs ev.src_path (sha256hex b), hinf _, ?_⟩
    intro rest
    simp only [processEvents, hoc]

/-- C7 witness: an event for the unreadable file `"bad"` is logged and the
session continues. -/
theorem claim_C7_witness :
    ∃ fs1 e, on_closed env0 "r" fsC3 ⟨false, "bad"⟩ = (fs1, [], [errLine "bad" e]) ∧
      fs1.files = fsC3.files ∧
      List.IsInfix "bad".data (errLine "bad" e).data ∧
      ∀ rest, (processEvents env0 "r" (⟨false, "bad"⟩ :: rest) fsC3).1 =
        (processEvents env0 "r" rest fs1).1 :=
  claim_C7 env0 "r" fsC3 ⟨false, "bad"⟩ rfl (by decide) (by decide) (Or.inl rfl)

/-- C3 counterexample: the batch write loop has no try/except, so with the
order `["bad" (unreadable), "a.txt" (readable)]` the `ReadError` on `"bad"`
crashes the run before `"a.txt"` is attempted — `"a.txt"` is not digested
and its sidecar does not exist, refuting "the remaining files are still
attempted ... in either order fileA is still digested and its sidecar
written". -/
theorem claim_C3_counterexample :
    fsC3.files "a.txt" = some [0] ∧ fsC3.files "bad" = none ∧
    batchMain env0 .oneshot ["bad", "a.txt"] fsC3 = .crash fsC3 [] .readError ∧
    fsC3.files (sidecarPath "a.txt") = none :=
  ⟨rfl, rfl, rfl, rfl⟩

/-- C3 (amended): batch write mode does not isolate per-file failures: a
`ReadError` aborts the run at the failing file with a failure outcome (the
uncaught exception).  Files before the failing one in the list are still
digested with their sidecars written; files after it are not attempted (the
run has already crashed), and non-sidecar file contents are never touched. -/
theorem claim_C3_amended (env : Env) (pre post : List String) (bad : String) (fs : FS)
    (hpre : ∀ p ∈ pre, pathSuffix p ≠ ".sha256" →
      p ≠ "" ∧ (∃ b, fs.files p = some b) ∧ env.sidecarFails (p ++ ".sha256") = false)
    (hbadsuf : pathSuffix bad ≠ ".sha256") (hbad : fs.files bad = none) :
    ∃ fs1, batchMain env .oneshot (pre ++ bad :: post) fs = .crash fs1 [] .readError ∧
      (∀ p, pathSuffix p ≠ ".sha256" → fs1.files p = fs.files p) ∧
      (∀ p ∈ pre, pathSuffix p ≠ ".sha256" → ∀ b, fs.files p = some b →
        fs1.files (p ++ ".sha256") = some (encodeAscii (sha256hex b ++ "\n"))) := by
  obtain ⟨fs1, e, hag, _, hfin, _, _⟩ := oneshot_loop env pre fs fs 0 [] (fun p _ => rfl) hpre
  have happ := runBatch_append env .oneshot pre (bad :: post) fs fs1 0 0 [] [] e
  have hcomp : compute_sha256 fs1 bad = .error .readError :=
    compute_sha256_none fs1 bad ((hag bad hbadsuf).trans hbad)
  refine ⟨fs1, ?_, hag, hfin⟩
  rw [batchMain, happ]
  simp only [runBatch, if_neg hbadsuf, hcomp]

/-- C3 witness: with the readable file first (`["a.txt", "bad"]`), `"a.txt"`
gets its sidecar and the run still ends in failure at `"bad"`. -/
theorem claim_C3_witness :
    ∃ fs1, batchMain env0 .oneshot (["a.txt"] ++ "bad" :: []) fsC3 = .crash fs1 [] .readError ∧
      (∀ p, pathSuffix p ≠ ".sha256" → fs1.files p = fsC3.files p) ∧
      (∀ p ∈ ["a.txt"], pathSuffix p ≠ ".sha256" → ∀ b, fsC3.files p = some b →
        fs1.files (p ++ ".sha256") = some (encodeAscii (sha256hex b ++ "\n"))) :=
  claim_C3_amended env0 ["a.txt"] [] "bad" fsC3
    (by
      intro p hp hs
      rw [List.mem_singleton] at hp
      subst hp
      exact ⟨by decide, ⟨[0], rfl⟩, rfl⟩)
    (by decide) rfl

/-- C4 counterexample: a file named exactly `".sha256"` ends in the sidecar
suffix, yet `pathlib` treats a lone leading dot as a hidden-file name with
empty suffix, so the handler digests it, writes a sidecar
`".sha256.sha256"` and prints a log line — refuting "ends in '.sha256'
implies no digest and nothing written". -/
theorem claim_C4_counterexample :
    pyEndswith ".sha256" ".sha256" = true ∧
    (on_closed env0 "r" fsC4 ⟨false, ".sha256"⟩).2.1 ≠ [] ∧
    (on_closed env0 "r" fsC4 ⟨false, ".sha256"⟩).1.files ".sha256.sha256" ≠ none := by
  have hcomp : compute_sha256 fsC4 ".sha256" = .ok (sha256hex []) :=
    compute_sha256_eq fsC4 ".sha256" [] rfl
  have hfilter : ¬(pathSuffix ".sha256" = ".sha256" ∨
      pyStartswith ".sha256" ".~" = true) := by decide
  have hw := write_sidecar_ok env0 (set_xattr_sha256 env0 fsC4 ".sha256" (sha256hex []))
    ".sha256" (sha256hex []) rfl
  have hoc : on_closed env0 "r" fsC4 ⟨false, ".sha256"⟩ =
      (putFile (set_xattr_sha256 env0 fsC4 ".sha256" (sha256hex [])) (sidecarPath ".sha256")
        (encodeAscii (sha256hex [] ++ "\n")),
       [successLine "r" ".sha256" (sha256hex [])], []) := by
    simp only [on_closed, Bool.false_eq_true, if_false, if_neg hfilter, hcomp, hw]
  rw [hoc]
  refine ⟨by decide, by simp, ?_⟩
  have hsp : sidecarPath ".sha256" = ".sha256.sha256" := by
    rw [sidecarPath_eq]
    decide
  rw [putFile_files, hsp, if_pos rfl]
  simp

/-- C4 (amended): the watcher ignores an event — leaving the state untouched
and producing no output at all — when it is directory-only, or the final
name component ends in `".sha256"` with a nonempty stem before it (i.e. its
`pathlib` suffix is `".sha256"`; the bare hidden-file name `".sha256"` is
the exception recorded in the counterexample), or the name starts with the
temporary-file marker `".~"`. -/
theorem claim_C4_amended (env : Env) (root : String) (fs : FS) (ev : FsEvent)
    (h : ev.isDir = true ∨
      (pyEndswith ev.src_path ".sha256" = true ∧ ev.src_path ≠ ".sha256") ∨
      pyStartswith ev.src_path ".~" = true) :
    on_closed env root fs ev = (fs, [], []) := by
  rcases h with h | ⟨h1, h2⟩ | h
  · simp only [on_closed, h, if_true]
  · have hs : pathSuffix ev.src_path = ".sha256" := pathSuffix_of_endswith _ h1 h2
    cases hdir : ev.isDir
    · simp only [on_closed, hdir, Bool.false_eq_true, if_false, if_pos (Or.inl hs)]
    · simp only [on_closed, hdir, if_true]
  · cases hdir : ev.isDir
    · simp only [on_closed, hdir, Bool.false_eq_true, if_false, if_pos (Or.inr h)]
    · simp only [on_closed, hdir, if_true]

/-- C4 witness: an event for `"x.sha256"` (a sidecar the monitor itself
would create) is fully ignored. -/
theorem claim_C4_witness :
    on_closed env0 "r" fsEmptyA ⟨false, "x.sha256"⟩ = (fsEmptyA, [], []) :=
  claim_C4_amended env0 "r" fsEmptyA ⟨false, "x.sha256"⟩
    (Or.inr (Or.inl ⟨by decide, by decide⟩))

/-- C6 counterexample: a readable file named `"x.sha256"` with no sidecar is
skipped by the verify loop because its own suffix is `".sha256"`, so no
mismatch is recorded and the exit code is `0` — refuting "for every file
with no sidecar, verify records a mismatch and exits nonzero". -/
theorem claim_C6_counterexample :
    fsC6.files "x.sha256" = some [5] ∧
    fsC6.files (sidecarPath "x.sha256") = none ∧
    batchMain env0 .verify ["x.sha256"] fsC6 = .ok fsC6 0 [] :=
  ⟨rfl, rfl, rfl⟩

/-- C6 (amended): for every readable input whose own name is not
`".sha256"`-suffixed (such inputs are skipped), a missing sidecar makes
batch verify record a mismatch for that file and finish with exit code 1,
provided the other non-skipped inputs are readable so the run completes. -/
theorem claim_C6_amended (env : Env) (fs : FS) (l : List String) (F : String)
    (hF : F ∈ l) (hsuf : pathSuffix F ≠ ".sha256")
    (hall : ∀ p ∈ l, pathSuffix p ≠ ".sha256" → ∃ c, fs.files p = some c)
    (hmiss : fs.files (sidecarPath F) = none) :
    ∃ errs, batchMain env .verify l fs = .ok fs 1 errs ∧ mismatchLine F ∈ errs := by
  obtain ⟨rc2, errs2, e, _, hmis⟩ := verify_loop env l fs 0 [] hall
  obtain ⟨hrc, hmem⟩ := hmis F hF hsuf hmiss
  refine ⟨errs2, ?_, hmem⟩
  rw [batchMain, e, hrc, List.nil_append]

/-- C6 witness: verifying the readable file `"x"` with no sidecar reports a
mismatch and exits 1. -/
theorem claim_C6_witness :
    ∃ errs, batchMain env0 .verify ["x"] fsC9x = .ok fsC9x 1 errs ∧ mismatchLine "x" ∈ errs :=
  claim_C6_amended env0 fsC9x ["x"] "x" (List.mem_singleton.mpr rfl) (by decide)
    (by
      intro p hp hs
      rw [List.mem_singleton] at hp
      subst hp
      exact ⟨[], rfl⟩)
    rfl

/-- C9 counterexample: the readable input `"x.sha256"` (sidecar writable,
`xattr` available) is skipped entirely by batch write mode — no digest is
computed and neither sink is written — refuting "no input path in the list
is skipped". -/
theorem claim_C9_counterexample :
    fsC9.files "x.sha256" = some [7] ∧
    batchMain env0 .oneshot ["x.sha256"] fsC9 = .ok fsC9 0 [] ∧
    fsC9.files (sidecarPath "x.sha256") = none ∧
    fsC9.xattrs "x.sha256" = none :=
  ⟨rfl, rfl, rfl, rfl⟩

/-- C9 (amended): batch write mode digests every input path except those
whose own suffix is `".sha256"`, which it skips; each processed path (with
nonempty name, readable, sidecar writable) gets its sidecar overwritten with
its digest plus newline, and its attribute record written whenever the
attribute sink is available and does not fail. -/
theorem claim_C9_amended (env : Env) (l : List String) (fs : FS)
    (h : ∀ p ∈ l, pathSuffix p ≠ ".sha256" →
      p ≠ "" ∧ (∃ b, fs.files p = some b) ∧ env.sidecarFails (p ++ ".sha256") = false) :
    ∃ fs1, batchMain env .oneshot l fs = .ok fs1 0 [] ∧
      (∀ p ∈ l, pathSuffix p ≠ ".sha256" → ∀ b, fs.files p = some b →
        fs1.files (p ++ ".sha256") = some (encodeAscii (sha256hex b ++ "\n"))) ∧
      (∀ p ∈ l, pathSuffix p ≠ ".sha256" → env.xattrAvailable = true →
        env.xattrFails p = false → ∀ b, fs.files p = some b →
        fs1.xattrs p = some (encodeAscii (sha256hex b))) := by
  obtain ⟨fs1, e, _, _, hfin, _, hxfin⟩ := oneshot_loop env l fs fs 0 [] (fun p _ => rfl) h
  exact ⟨fs1, e, hfin, hxfin⟩

/-- C9 witness: batch write on the single readable file `"a"` writes both
its sidecar and its attribute record. -/
theorem claim_C9_witness :
    ∃ fs1, batchMain env0 .oneshot ["a"] fsEmptyA = .ok fs1 0 [] ∧
      (∀ p ∈ ["a"], pathSuffix p ≠ ".sha256" → ∀ b, fsEmptyA.files p = some b →
        fs1.files (p ++ ".sha256") = some (encodeAscii (sha256hex b ++ "\n"))) ∧
      (∀ p ∈ ["a"], pathSuffix p ≠ ".sha256" → env0.xattrAvailable = true →
        env0.xattrFails p = false → ∀ b, fsEmptyA.files p = some b →
        fs1.xattrs p = some (encodeAscii (sha256hex b))) :=
  claim_C9_amended env0 ["a"] fsEmptyA
    (by
      intro p hp hs
      rw [List.mem_singleton] at hp
      subst hp
      exact ⟨by decide, ⟨[], rfl⟩, rfl⟩)
